import Mathlib

/-!
Verification of the SynapseHA name-resolution / fuzzy-search / cache core.

The definitions below are a shallow embedding of the TypeScript/JavaScript
sources:
  * `normalizeName`, `NameResolver.setEntities`, `NameResolver.resolveEntityId`
    from `addons/synapseha/src/lib/name-resolver.ts` (the `server.js` copies of
    `normalizeName` / `buildEntityIndex` / `resolveEntityId` behave identically
    on the modelled fields);
  * `searchEntitiesFuzzy` / `fuzzyMatch` from `addons/mcp-ha-bridge/server.js`;
  * `CacheManager.get` / `set` / `getOrFetch` from `src/lib/cache.ts`.

JavaScript strings are modelled as `List Char` (`JStr`); JS `undefined`/missing
fields as `Option`; JS string truthiness (`if (s)`) as `s ≠ ""`; the JS event
loop's cooperative scheduling as an explicit event list (see `runSched`).
-/

set_option autoImplicit false

namespace SynapseHA

/-- JavaScript strings, modelled as lists of characters. -/
abbrev JStr := List Char

/-- The character class `[a-z0-9]` of the normalization regex
`/[^a-z0-9]+/g` in `normalizeName` (both sources). -/
def isAlnum (c : Char) : Bool :=
  (97 ≤ c.toNat && c.toNat ≤ 122) || (48 ≤ c.toNat && c.toNat ≤ 57)

/-- Model of JS `String.prototype.toLowerCase` on one character
(ASCII letters are lowered; everything else is fixed). -/
def jsLower (c : Char) : Char :=
  if 65 ≤ c.toNat && c.toNat ≤ 90 then Char.ofNat (c.toNat + 32) else c

/-- Model of `replace(/[^a-z0-9]+/g, '_')`: every maximal run of characters outside
`[a-z0-9]` becomes a single `'_'`.  The boolean argument records whether the
previous character belonged to such a run (so the run emits only one `'_'`). -/
def collapseGo : Bool → List Char → List Char
  | _, [] => []
  | prevSep, c :: rest =>
    if isAlnum c then c :: collapseGo false rest
    else if prevSep then collapseGo true rest
    else '_' :: collapseGo true rest

/-- Model of `replace(/^_+|_+$/g, '')`: strip leading and trailing underscores. -/
def stripSeps (l : List Char) : List Char :=
  ((l.dropWhile (fun c => c == '_')).reverse.dropWhile (fun c => c == '_')).reverse

/-- Embedding of `normalizeName` from `name-resolver.ts` lines 9–15 (and `server.js`
lines 192–198): lower-case, collapse non-alphanumeric runs to `'_'`,
strip leading/trailing `'_'`. -/
def normalizeName (s : JStr) : JStr :=
  stripSeps (collapseGo false (s.map jsLower))

/-! ## Small JS string helpers used by the sources -/

/-- JS string truthiness on an optional string: `if (s)` is taken exactly
when the value is present and non-empty. -/
def jsTruthy : Option JStr → Bool
  | some s => !s.isEmpty
  | none => false

/-- Model of `a || b` on JS strings: `b` when `a` is missing or empty, else `a`. -/
def jsOrStr (o : Option JStr) (dflt : JStr) : JStr :=
  match o with
  | some s => if s.isEmpty then dflt else s
  | none => dflt

/-- Model of `String.prototype.split(sep)` (single-character separator), accumulator
holds the current piece reversed. -/
def splitGo (sep : Char) : List Char → List Char → List JStr
  | [], acc => [acc.reverse]
  | c :: rest, acc =>
    if c = sep then acc.reverse :: splitGo sep rest [] else splitGo sep rest (c :: acc)

/-- Model of `s.split(sep)`. -/
def splitChar (sep : Char) (s : JStr) : List JStr := splitGo sep s []

/-- Model of `s.split(sep).filter(Boolean)`: the non-empty pieces. -/
def splitWords (sep : Char) (s : JStr) : List JStr :=
  (splitChar sep s).filter (fun w => !w.isEmpty)

/-- Model of `id.split('.').slice(1).join(' ')` — the friendly-name fallback derived
from an entity id. -/
def fallbackName (id : JStr) : JStr :=
  List.intercalate [' '] ((splitChar '.' id).drop 1)

/-- Model of `id.replace('.', ' ')` — JS `replace` with a string pattern replaces only
the first occurrence. -/
def replaceFirstDot : JStr → JStr
  | [] => []
  | c :: rest => if c = '.' then ' ' :: rest else c :: replaceFirstDot rest

/-- Model of `hay.includes(needle)`. -/
def isSubstring (needle : JStr) : JStr → Bool
  | [] => needle.isPrefixOf []
  | c :: rest => needle.isPrefixOf (c :: rest) || isSubstring needle rest

/-! ## Data model (types/index.ts, restricted to the fields the core reads) -/

/-- The attribute-bag fields read by the resolver and the fuzzy search. -/
structure EntityAttrs where
  friendly_name : Option JStr
  area_id : Option JStr
  floor : Option JStr
deriving DecidableEq

/-- The `Entity` interface (types/index.ts): the fields the core reads. -/
structure Entity where
  entity_id : JStr
  state : JStr
  attributes : EntityAttrs
deriving DecidableEq

/-- The `Area` interface (types/index.ts). -/
structure Area where
  area_id : JStr
  name : JStr
deriving DecidableEq

/-- The `Device` interface: the fields read by the fuzzy search's area-hint fallback
(`server.js`), plus the child-entity id list the spec gives a Device. -/
structure Device where
  id : JStr
  area_id : Option JStr
  entities : List JStr
deriving DecidableEq

/-! ## Insertion-ordered maps (JS `Map` / plain objects) -/

/-- Model of `Map.prototype.get` / property lookup on a plain object. -/
def assocFind {β : Type _} : List (JStr × β) → JStr → Option β
  | [], _ => none
  | kv :: rest, k => if kv.1 = k then some kv.2 else assocFind rest k

/-- Model of `Map.prototype.set` / property assignment: overwrite in place, append new
keys at the end (JS insertion order). -/
def assocSet {β : Type _} : List (JStr × β) → JStr → β → List (JStr × β)
  | [], k, v => [(k, v)]
  | kv :: rest, k, v => if kv.1 = k then (k, v) :: rest else kv :: assocSet rest k v

/-! ## NameIndex (`setEntities` in name-resolver.ts; `buildEntityIndex`'s
indexing loop in server.js) -/

/-- The name index: normalized token → candidate entity-id array. -/
abbrev NameIndex := List (JStr × List JStr)

/-- Model of `nameIndex.get(key).push(id)`, creating the array when absent
(`if (!this.nameIndex.has(normalized)) this.nameIndex.set(normalized, []);
this.nameIndex.get(normalized)!.push(id);`). -/
def indexInsert : NameIndex → JStr → JStr → NameIndex
  | [], key, id => [(key, [id])]
  | kv :: rest, key, id =>
    if kv.1 = key then (kv.1, kv.2 ++ [id]) :: rest else kv :: indexInsert rest key id

/-- The candidate array for a token (`this.nameIndex.get(normalized) || []`). -/
def lookupList (idx : NameIndex) (key : JStr) : List JStr :=
  (assocFind idx key).getD []

/-- The friendly-name token an entity is indexed under:
`normalize(attributes?.friendly_name || id.split('.').slice(1).join(' '))`. -/
def entityNameKey (e : Entity) : JStr :=
  normalizeName (jsOrStr e.attributes.friendly_name (fallbackName e.entity_id))

/-- The id token an entity is indexed under:
`normalize(id.replace('.', ' '))`. -/
def entityIdKey (e : Entity) : JStr :=
  normalizeName (replaceFirstDot e.entity_id)

/-- One iteration of the `setEntities` indexing loop: insert the entity under
its friendly-name token, then under its id token. -/
def indexStep (idx : NameIndex) (e : Entity) : NameIndex :=
  indexInsert (indexInsert idx (entityNameKey e) e.entity_id) (entityIdKey e) e.entity_id

/-- The name index built by `setEntities` (the map is cleared first, so the
fold starts from the empty index). -/
def buildNameIndex (es : List Entity) : NameIndex :=
  es.foldl indexStep []

/-- The `entities` map built by `setEntities`. -/
def buildEntities (es : List Entity) : List (JStr × Entity) :=
  es.foldl (fun m e => assocSet m e.entity_id e) []

/-- The resolver's registries: `nameIndex`, `entities`, `areas`, `devices`
(fields of `NameResolver` / of the server object). -/
structure Registry where
  nameIndex : NameIndex
  entities : List (JStr × Entity)
  areas : List (JStr × Area)
  devices : List (JStr × Device)
deriving DecidableEq

/-! ## ResolverService (`resolveEntityId`, name-resolver.ts lines 57–137) -/

/-- The `ResolutionQuery` shape: the argument object of `resolveEntityId`. -/
structure Query where
  entity_id : Option JStr
  name : Option JStr
  area : Option JStr
  floor : Option JStr
  domain : Option JStr
deriving DecidableEq

/-- The partial-match fallback: scan all index tokens, collect candidates
whose key contains the query or vice versa. -/
def partialMatchIds (idx : NameIndex) (normalized : JStr) : List JStr :=
  idx.foldl
    (fun acc kv =>
      if isSubstring normalized kv.1 || isSubstring kv.1 normalized then acc ++ kv.2 else acc)
    []

/-- Model of `[...new Set(xs)]`: deduplicate keeping first occurrences. -/
def dedupGo : List JStr → List JStr → List JStr
  | [], _ => []
  | x :: rest, seen =>
    if x ∈ seen then dedupGo rest seen else x :: dedupGo rest (x :: seen)

/-- Model of `[...new Set(xs)]`. -/
def dedup (l : List JStr) : List JStr := dedupGo l []

/-- Model of `c.startsWith(domain + ".")`. -/
def hasDomain (dom : JStr) (c : JStr) : Bool :=
  (dom ++ ['.']).isPrefixOf c

/-- The area predicate of the disambiguation step: the candidate's entity has
a (truthy) `attributes.area_id`, that area exists in the `areas` map, and its
name normalizes equal to the normalized hint.  The owning device is never
consulted here. -/
def areaMatches (r : Registry) (areaArg : JStr) (entityId : JStr) : Bool :=
  match assocFind r.entities entityId with
  | none => false
  | some e =>
    match e.attributes.area_id with
    | none => false
    | some aid =>
      if aid.isEmpty then false
      else
        match assocFind r.areas aid with
        | none => false
        | some areaObj => normalizeName areaObj.name = normalizeName areaArg

/-- The floor predicate: `entity?.attributes?.floor === args.floor`. -/
def floorMatches (r : Registry) (floorArg : JStr) (entityId : JStr) : Bool :=
  match assocFind r.entities entityId with
  | none => false
  | some e =>
    match e.attributes.floor with
    | none => false
    | some f => f = floorArg

/-- Disambiguation step (a): keep candidates in the hinted domain, if any. -/
def domainStep (domainArg : Option JStr) (cands : List JStr) : List JStr :=
  if jsTruthy domainArg then
    let dm := cands.filter (hasDomain (domainArg.getD []))
    if dm.isEmpty then cands else dm
  else cands

/-- Disambiguation step (b): keep candidates whose (attribute-resolved) area
matches the hint, if any — only applied while more than one candidate
remains. -/
def areaStep (r : Registry) (areaArg : Option JStr) (cands : List JStr) : List JStr :=
  if jsTruthy areaArg && decide (1 < cands.length) then
    let am := cands.filter (areaMatches r (areaArg.getD []))
    if am.isEmpty then cands else am
  else cands

/-- Disambiguation step (c): keep candidates whose floor attribute equals the
hint, if any — only applied while more than one candidate remains. -/
def floorStep (r : Registry) (floorArg : Option JStr) (cands : List JStr) : List JStr :=
  if jsTruthy floorArg && decide (1 < cands.length) then
    let fm := cands.filter (floorMatches r (floorArg.getD []))
    if fm.isEmpty then cands else fm
  else cands

/-- Model of `filtered[0] || null` — the final tie-break. -/
def jsFirstOrNull (l : List JStr) : Option JStr :=
  match l.head? with
  | none => none
  | some s => if s.isEmpty then none else some s

/-- Embedding of `resolveEntityId` (name-resolver.ts lines 57–137; `server.js`
lines 1000–1057 is the same algorithm). -/
def resolveEntityId (r : Registry) (args : Query) : Option JStr :=
  if jsTruthy args.entity_id then args.entity_id
  else if !jsTruthy args.name then none
  else
    let normalized := normalizeName (args.name.getD [])
    let exact := lookupList r.nameIndex normalized
    let candidates := if exact.isEmpty then dedup (partialMatchIds r.nameIndex normalized) else exact
    if candidates.isEmpty then none
    else if candidates.length = 1 then candidates.head?
    else
      jsFirstOrNull (floorStep r args.floor (areaStep r args.area (domainStep args.domain candidates)))

/-- Modelled from the spec (§4.3 step 7b / §3 Device): the area of an entity
"resolved either from the entity's own area attribute or from the area of its
owning device", the owning device being one whose child-entity id list
contains the entity.  This definition follows the spec's words; the source's
resolver has no device fallback (that is the content of claim C1). -/
def specResolvedAreaMatch (r : Registry) (areaArg : JStr) (entityId : JStr) : Bool :=
  let fromAttr : Option Area :=
    match assocFind r.entities entityId with
    | none => none
    | some e =>
      match e.attributes.area_id with
      | none => none
      | some aid => if aid.isEmpty then none else assocFind r.areas aid
  let fromDevice : Option Area :=
    match (r.devices.map Prod.snd).find? (fun d => entityId ∈ d.entities) with
    | none => none
    | some d =>
      match d.area_id with
      | none => none
      | some daid => if daid.isEmpty then none else assocFind r.areas daid
  match fromAttr with
  | some a => normalizeName a.name = normalizeName areaArg
  | none =>
    match fromDevice with
    | some a => normalizeName a.name = normalizeName areaArg
    | none => false

/-! ## FuzzyMatcher (`searchEntitiesFuzzy` / `fuzzyMatch`, server.js) -/

/-- The mismatch-counting loop of `fuzzyMatch` once one string is exhausted:
every remaining position of the other string is a mismatch
(JS `str[i]` is `undefined` out of range). -/
def tailMismatch : List Char → Nat → Bool
  | [], d => decide (d ≤ 2)
  | _ :: r, d => if d + 1 > 2 then false else tailMismatch r (d + 1)

/-- The position-wise loop of `fuzzyMatch` (server.js lines 2512–2525):
count mismatches over the longer length, returning `false` as soon as the
count exceeds 2, else `differences <= 2` at the end. -/
def mismatchLoop : List Char → List Char → Nat → Bool
  | [], s2, d => tailMismatch s2 d
  | _ :: r, [], d => if d + 1 > 2 then false else mismatchLoop r [] (d + 1)
  | c :: r, c' :: r', d =>
    let d' := if c = c' then d else d + 1
    if d' > 2 then false else mismatchLoop r r' d'

/-- Model of `Math.abs(str1.length - str2.length)`. -/
def lenDiff (s1 s2 : JStr) : Nat :=
  max s1.length s2.length - min s1.length s2.length

/-- Embedding of `fuzzyMatch(str1, str2)` (server.js lines 2512–2525). -/
def fuzzyMatch (s1 s2 : JStr) : Bool :=
  if lenDiff s1 s2 > 2 then false else mismatchLoop s1 s2 0

/-- The exact/starts-with/contains block of `searchEntitiesFuzzy`
(the `score += 1000 / 500 / 250 / 200` contributions). -/
def coreScore (queryN nm idN : JStr) : Int :=
  (if nm = queryN ∨ idN = queryN then (1000 : Int) else 0) +
  (if queryN.isPrefixOf nm || queryN.isPrefixOf idN then (500 : Int) else 0) +
  (if isSubstring queryN nm then (250 : Int) else 0) +
  (if isSubstring queryN idN then (200 : Int) else 0)

/-- Score of one query word against one word of the friendly name
(`100 / 50 / 25 / 15`). -/
def nameWordScore (qWord nWord : JStr) : Int :=
  if nWord = qWord then 100
  else if qWord.isPrefixOf nWord then 50
  else if isSubstring qWord nWord then 25
  else if fuzzyMatch nWord qWord then 15
  else 0

/-- Score of one query word against one word of the id (`80 / 40 / 20 / 10`). -/
def idWordScore (qWord iWord : JStr) : Int :=
  if iWord = qWord then 80
  else if qWord.isPrefixOf iWord then 40
  else if isSubstring qWord iWord then 20
  else if fuzzyMatch iWord qWord then 10
  else 0

/-- The word-by-word matching block of `searchEntitiesFuzzy`. -/
def tokenScore (queryWords nameWords idWords : List JStr) : Int :=
  (queryWords.map (fun q =>
    (nameWords.map (nameWordScore q)).sum + (idWords.map (idWordScore q)).sum)).sum

/-- The area-hint resolution of `searchEntitiesFuzzy`: attribute area if
present in the areas map, else the area of the first device whose
`entities` list contains the id. -/
def fuzzyEntityArea (r : Registry) (id : JStr) (e : Entity) : Option Area :=
  let attrArea : Option Area :=
    match e.attributes.area_id with
    | none => none
    | some aid => if aid.isEmpty then none else assocFind r.areas aid
  match attrArea with
  | some a => some a
  | none =>
    match (r.devices.map Prod.snd).find? (fun d => id ∈ d.entities) with
    | none => none
    | some d =>
      match d.area_id with
      | none => none
      | some daid => if daid.isEmpty then none else assocFind r.areas daid

/-- The `+150 / +150` hint bonuses of `searchEntitiesFuzzy`. -/
def hintScore (r : Registry) (domainHint areaHint : Option JStr) (id : JStr) (e : Entity) : Int :=
  (if jsTruthy domainHint && hasDomain (domainHint.getD []) id then (150 : Int) else 0) +
  (if jsTruthy areaHint then
      match fuzzyEntityArea r id e with
      | some a =>
        if normalizeName a.name = normalizeName (areaHint.getD []) then (150 : Int) else 0
      | none => 0
    else 0)

/-- The `−50` unavailable/unknown penalty. -/
def statePenalty (e : Entity) : Int :=
  if e.state = ("unavailable".toList) || e.state = ("unknown".toList) then -50 else 0

/-- The total relevance score of one entity in `searchEntitiesFuzzy`
(server.js lines 2337–2420); all contributions are summed. -/
def scoreEntity (r : Registry) (queryN : JStr) (queryWords : List JStr)
    (domainHint areaHint : Option JStr) (id : JStr) (e : Entity) : Int :=
  let friendly := jsOrStr e.attributes.friendly_name id
  let nm := normalizeName friendly
  let idN := normalizeName id
  coreScore queryN nm idN +
    tokenScore queryWords (splitWords '_' nm) (splitWords '_' idN) +
    hintScore r domainHint areaHint id e +
    statePenalty e

/-- Stable descending insertion by score: an element is placed before the
first element of strictly smaller score (model of JS's stable
`sort((a, b) => b.score - a.score)`). -/
def insertDesc (x : JStr × Int) : List (JStr × Int) → List (JStr × Int)
  | [] => [x]
  | y :: rest => if y.2 < x.2 then x :: y :: rest else y :: insertDesc x rest

/-- Stable descending sort by score. -/
def sortDesc (l : List (JStr × Int)) : List (JStr × Int) :=
  l.foldl (fun acc x => insertDesc x acc) []

/-- The ranking computed by `searchEntitiesFuzzy`: score every entity in
registry order, keep scores `> 0`, sort stably by descending score, truncate
to the limit. -/
def searchRanked (r : Registry) (query : JStr) (domainHint areaHint : Option JStr)
    (limit : Nat) : List (JStr × Int) :=
  let queryN := normalizeName query
  let queryWords := splitWords '_' queryN
  let scored :=
    (r.entities.map (fun kv =>
      (kv.1, scoreEntity r queryN queryWords domainHint areaHint kv.1 kv.2))).filter
      (fun s => decide (0 < s.2))
  (sortDesc scored).take limit

/-- The position-wise mismatch count of two tokens taken over the length of
the longer token, an out-of-range position counting as a mismatch (the
specification's description of the near-match test). -/
def mismatchCount : List Char → List Char → Nat
  | [], [] => 0
  | [], _ :: r => 1 + mismatchCount [] r
  | _ :: r, [] => 1 + mismatchCount r []
  | c :: r, c' :: r' => (if c = c' then 0 else 1) + mismatchCount r r'

/-! ## CacheLayer (`CacheManager`, src/lib/cache.ts) -/

/-- The `CachedData<T>` record: `{ data, timestamp, ttl }`.  `data` is `Option V`
because a JS value may be `null` (`none` models `null`). -/
structure CacheRecord (V : Type) where
  data : Option V
  timestamp : Nat
  ttl : Nat
deriving DecidableEq

/-- The two cache tiers: `memoryCache` and the per-key disk files. -/
structure CacheState (V : Type) where
  memory : List (JStr × CacheRecord V)
  disk : List (JStr × CacheRecord V)
deriving DecidableEq

/-- Embedding of `CacheManager.get` (cache.ts lines 32–54): memory tier first if fresh
(`now - timestamp < ttl`); else the disk tier, promoting a fresh disk record
into memory; else `null` (`none`).  Returns the value and the (possibly
promoted) state. -/
def cacheGet {V : Type} (st : CacheState V) (key : JStr) (now : Nat) :
    Option V × CacheState V :=
  match assocFind st.memory key with
  | some rec =>
    if now - rec.timestamp < rec.ttl then (rec.data, st)
    else
      match assocFind st.disk key with
      | some drec =>
        if now - drec.timestamp < drec.ttl then
          (drec.data, ⟨assocSet st.memory key drec, st.disk⟩)
        else (none, st)
      | none => (none, st)
  | none =>
    match assocFind st.disk key with
    | some drec =>
      if now - drec.timestamp < drec.ttl then
        (drec.data, ⟨assocSet st.memory key drec, st.disk⟩)
      else (none, st)
    | none => (none, st)

/-- Embedding of `CacheManager.set` (cache.ts lines 56–73): write
`{ data, timestamp: Date.now(), ttl }` into both tiers. -/
def cacheSet {V : Type} (st : CacheState V) (key : JStr) (data : Option V)
    (ttl : Nat) (now : Nat) : CacheState V :=
  ⟨assocSet st.memory key ⟨data, now, ttl⟩, assocSet st.disk key ⟨data, now, ttl⟩⟩

/-- Embedding of `CacheManager.getOrFetch` (cache.ts lines 75–88): `get`; if the result is
`null`, invoke the fetch function (modelled by its outcome, a rejection `E`
or a resolved value), store the result in both tiers, return it.  A rejection
propagates (there is no `try`/`catch`). -/
def getOrFetch {V E : Type} (st : CacheState V) (key : JStr)
    (fetchFn : Except E (Option V)) (ttl : Nat) (now : Nat) :
    Except E (Option V × CacheState V) :=
  match cacheGet st key now with
  | (some v, st1) => Except.ok (some v, st1)
  | (none, st1) =>
    match fetchFn with
    | Except.error e => Except.error e
    | Except.ok data => Except.ok (data, cacheSet st1 key data ttl now)

/-! ## Atomic rebuild (C7): the cooperative-scheduling model

`buildEntityIndex` (server.js) and `setEntities` (name-resolver.ts) clear and
repopulate the index in one synchronous block with no `await` inside, so in
the single-threaded event loop a fetch completion applies the whole new index
in one step, a failed fetch applies nothing, and lookups interleave only
between whole events. -/

/-- An event of an interleaved execution: a lookup of a key, a fetch
completion carrying the new entity list (whose continuation synchronously
rebuilds the index), or a fetch failure (which leaves the index alone). -/
inductive REvent where
  | doLookup (key : JStr)
  | fetchOk (newEntities : List Entity)
  | fetchFail
deriving DecidableEq

/-- Run a schedule of events against a current index, recording every
lookup's key and result. -/
def runSched (idx : NameIndex) : List REvent → NameIndex × List (JStr × List JStr)
  | [] => (idx, [])
  | REvent.doLookup k :: rest =>
    let r := runSched idx rest
    (r.1, (k, lookupList idx k) :: r.2)
  | REvent.fetchOk newEntities :: rest => runSched (buildNameIndex newEntities) rest
  | REvent.fetchFail :: rest => runSched idx rest

/-- An entity with this id is present in the entity list. -/
def presentId (es : List Entity) (i : JStr) : Prop :=
  ∃ e ∈ es, e.entity_id = i

/-! ## Predicates used by the normalization proofs -/

/-- Two adjacent characters are not both separators. -/
def SepOK (a b : Char) : Prop := ¬(a = '_' ∧ b = '_')

/-- The list does not begin with a separator. -/
def HeadOK : List Char → Prop
  | [] => True
  | c :: _ => c ≠ '_'

/-- Every character is alphanumeric or the separator. -/
def AllANS (l : List Char) : Prop := ∀ c ∈ l, isAlnum c = true ∨ c = '_'

/-! ## Concrete fixtures for counterexamples and witnesses -/

/-- An empty registry. -/
def emptyRegistry : Registry := ⟨[], [], [], []⟩

/-- An entity whose friendly name is the empty string (C4). -/
def entC4 : Entity := ⟨("light.kitchen".toList), ("on".toList), ⟨some [], none, none⟩⟩

/-- A "kitchen light" entity used by resolver witnesses. -/
def entKitchen : Entity :=
  ⟨("light.kitchen_light".toList), ("on".toList), ⟨some ("Kitchen Light".toList), none, none⟩⟩

/-- The registry holding only `entKitchen`. -/
def regKitchen : Registry :=
  ⟨buildNameIndex [entKitchen], buildEntities [entKitchen], [], []⟩

/-- The area "Office" (C1). -/
def areaOffice : Area := ⟨("office".toList), ("Office".toList)⟩

/-- C1: a candidate whose area is recorded as an entity attribute. -/
def entC1A : Entity :=
  ⟨("switch.office_fan".toList), ("on".toList),
   ⟨some ("fan".toList), some ("office".toList), none⟩⟩

/-- C1: a candidate with no area attribute; its area comes only from its
owning device. -/
def entC1B : Entity :=
  ⟨("light.fan_b".toList), ("on".toList), ⟨some ("fan".toList), none, none⟩⟩

/-- C1: the device owning `entC1B`, placed in the office. -/
def devC1B : Device :=
  ⟨("devb".toList), some ("office".toList), [("light.fan_b".toList)]⟩

/-- C1: the registry with both fans, the office area, and the device. -/
def regC1 : Registry :=
  ⟨buildNameIndex [entC1A, entC1B], buildEntities [entC1A, entC1B],
   [(("office".toList), areaOffice)], [(("devb".toList), devC1B)]⟩

/-- C1: the ambiguous candidate set for the name "fan". -/
def candsC1 : List JStr := [("switch.office_fan".toList), ("light.fan_b".toList)]

/-- C3: an exact-match candidate for the query "l". -/
def entC3A : Entity := ⟨("light.l".toList), ("on".toList), ⟨some ("l".toList), none, none⟩⟩

/-- C3: a prefix-only candidate for the query "l" whose name has twenty
"l" words, so its token score dwarfs the exact bonus. -/
def entC3B : Entity :=
  ⟨("switch.zzz".toList), ("on".toList),
   ⟨some ("l l l l l l l l l l l l l l l l l l l l".toList), none, none⟩⟩

/-- C3: the two-entity registry of the counterexample. -/
def regC3 : Registry :=
  ⟨[], [((entC3A.entity_id), entC3A), ((entC3B.entity_id), entC3B)], [], []⟩

/-- C3 witness: an exact-match candidate for the query "ab". -/
def entC3WA : Entity := ⟨("light.ab".toList), ("on".toList), ⟨some ("ab".toList), none, none⟩⟩

/-- C3 witness: a prefix-only candidate with the same residual
(token + hint + state) contribution as `entC3WA`. -/
def entC3WB : Entity := ⟨("zzzz.ab".toList), ("on".toList), ⟨some ("abq abr".toList), none, none⟩⟩

/-- C6: a cache whose durable tier holds a fresh record storing null while
the memory tier is empty (e.g. after a process restart). -/
def c6State : CacheState Nat := ⟨[], [(("k".toList), ⟨none, 0, 100⟩)]⟩

/-! # Theorems -/

/-! ## Helper lemmas: insertion-ordered maps -/

theorem assocFind_set_self {β : Type _} (m : List (JStr × β)) (k : JStr) (v : β) :
    assocFind (assocSet m k v) k = some v := by
  induction m with
  | nil => simp [assocSet, assocFind]
  | cons kv rest ih =>
    by_cases h : kv.1 = k
    · simp [assocSet, assocFind, h]
    · simp [assocSet, assocFind, h, ih]

theorem indexInsert_self (idx : NameIndex) (k id : JStr) :
    id ∈ lookupList (indexInsert idx k id) k := by
  induction idx with
  | nil => simp [indexInsert, lookupList, assocFind]
  | cons kv rest ih =>
    by_cases h : kv.1 = k
    · simp [indexInsert, lookupList, assocFind, h]
    · simpa [indexInsert, lookupList, assocFind, h] using ih

theorem indexInsert_mono (idx : NameIndex) (k k' id' x : JStr)
    (hx : x ∈ lookupList idx k) : x ∈ lookupList (indexInsert idx k' id') k := by
  induction idx with
  | nil => simp [lookupList, assocFind] at hx
  | cons kv rest ih =>
    by_cases h' : kv.1 = k'
    · by_cases h : kv.1 = k
      · subst h'
        simp only [lookupList, assocFind, h, if_pos] at hx
        simp only [indexInsert, if_pos rfl, lookupList, assocFind]
        rw [if_pos h]
        exact List.mem_append_left _ hx
      · simp only [indexInsert, if_pos h', lookupList, assocFind] at *
        rw [if_neg (h' ▸ h)] at *
        simpa [lookupList] using hx
    · by_cases h : kv.1 = k
      · simp only [lookupList, assocFind, if_pos h] at hx
        simp only [indexInsert, if_neg h', lookupList, assocFind, if_pos h]
        exact hx
      · simp only [lookupList, assocFind, if_neg h] at hx
        simp only [indexInsert, if_neg h', lookupList, assocFind, if_neg h]
        exact ih hx

theorem foldl_indexStep_mono (es : List Entity) (idx : NameIndex) (k x : JStr)
    (hx : x ∈ lookupList idx k) : x ∈ lookupList (es.foldl indexStep idx) k := by
  induction es generalizing idx with
  | nil => simpa using hx
  | cons e rest ih =>
    simp only [List.foldl_cons]
    exact ih _ (indexInsert_mono _ _ _ _ _ (indexInsert_mono _ _ _ _ _ hx))

theorem foldl_indexStep_complete (es : List Entity) :
    ∀ (idx : NameIndex) (e : Entity), e ∈ es →
      e.entity_id ∈ lookupList (es.foldl indexStep idx) (entityNameKey e) ∧
      e.entity_id ∈ lookupList (es.foldl indexStep idx) (entityIdKey e) := by
  induction es with
  | nil => intro idx e he; cases he
  | cons e0 rest ih =>
    intro idx e he
    rcases List.mem_cons.mp he with h0 | h0
    · subst h0
      simp only [List.foldl_cons]
      constructor
      · exact foldl_indexStep_mono _ _ _ _
          (indexInsert_mono _ _ _ _ _ (indexInsert_self _ _ _))
      · exact foldl_indexStep_mono _ _ _ _ (indexInsert_self _ _ _)
    · simp only [List.foldl_cons]
      exact ih _ e h0

/-- Core completeness of the `setEntities` index build: every entity of the
list is reachable under its friendly-name token and its id token. -/
theorem buildNameIndex_complete (es : List Entity) (e : Entity) (he : e ∈ es) :
    e.entity_id ∈ lookupList (buildNameIndex es) (entityNameKey e) ∧
    e.entity_id ∈ lookupList (buildNameIndex es) (entityIdKey e) :=
  foldl_indexStep_complete es [] e he

/-! ## Claim C2: explicit-id precedence -/

/-- C2 counterexample: a query carrying the explicit identifier `""` is not
returned unchanged — JS truthiness (`if (args.entity_id)`) treats the empty
string as absent, so resolution proceeds to the name path (here: not-found). -/
theorem C2_counterexample :
    (⟨some [], none, none, none, none⟩ : Query).entity_id = some [] ∧
    resolveEntityId emptyRegistry ⟨some [], none, none, none, none⟩ ≠ some [] ∧
    resolveEntityId emptyRegistry ⟨some [], none, none, none, none⟩ = none := by
  refine ⟨rfl, ?_, ?_⟩ <;> decide

/-- C2 (amended): for every resolution query carrying a NON-EMPTY explicit
identifier, `resolveEntityId` returns that identifier unchanged, for every
registry (in particular whether or not the identifier exists in it) and
regardless of any name/area/floor/domain hints. -/
theorem C2_explicit_id (r : Registry) (args : Query) (id : JStr)
    (hid : args.entity_id = some id) (hne : id ≠ []) :
    resolveEntityId r args = some id := by
  have ht : jsTruthy (some id) = true := by
    simp [jsTruthy, List.isEmpty_iff, hne]
  simp [resolveEntityId, hid, ht]

/-- C2 witness: an identifier absent from the registry, with a name hint
also present, is returned unchanged. -/
theorem C2_explicit_id_witness :
    resolveEntityId regKitchen
      ⟨some ("x.y".toList), some ("anything".toList), none, none, none⟩ =
      some ("x.y".toList) :=
  C2_explicit_id regKitchen
    ⟨some ("x.y".toList), some ("anything".toList), none, none, none⟩
    ("x.y".toList) rfl (by decide)

/-! ## Claim C5: cache freshness -/

/-- C5: a record written by `set` is served by `get` exactly while
`now - timestamp < ttl` holds strictly: strictly less than `ttl` later the
value is returned; at or after `ttl` later the result is absent (both tiers
hold the same record, and no intervening write happens in between). -/
theorem C5_freshness {V : Type} (st : CacheState V) (k : JStr) (v : V)
    (ttl t0 t1 : Nat) :
    (t1 - t0 < ttl → (cacheGet (cacheSet st k (some v) ttl t0) k t1).1 = some v) ∧
    (ttl ≤ t1 - t0 → (cacheGet (cacheSet st k (some v) ttl t0) k t1).1 = none) := by
  constructor
  · intro h
    simp [cacheGet, cacheSet, assocFind_set_self, h]
  · intro h
    have h' : ¬(t1 - t0 < ttl) := Nat.not_lt.mpr h
    simp [cacheGet, cacheSet, assocFind_set_self, h']

/-- C5 witness: `set(k, v, ttl=1000)` at time 0; `get(k)` at 500 returns v;
`get(k)` at 1500 returns absent. -/
theorem C5_freshness_witness :
    (cacheGet (cacheSet (⟨[], []⟩ : CacheState Nat) ("k".toList) (some 7) 1000 0)
        ("k".toList) 500).1 = some 7 ∧
    (cacheGet (cacheSet (⟨[], []⟩ : CacheState Nat) ("k".toList) (some 7) 1000 0)
        ("k".toList) 1500).1 = none :=
  ⟨(C5_freshness ⟨[], []⟩ ("k".toList) 7 1000 0 500).1 (by decide),
   (C5_freshness ⟨[], []⟩ ("k".toList) 7 1000 0 1500).2 (by decide)⟩

/-! ## Claim C6: fetch failure propagation -/

/-- If the `get` step of `getOrFetch` misses, it did not touch the memory
tier unless it promoted a fresh durable record (which can only happen when
that record stores null). -/
theorem cacheGet_disk_unchanged {V : Type} (st : CacheState V) (k : JStr) (now : Nat) :
    (cacheGet st k now).2.disk = st.disk := by
  unfold cacheGet
  rcases assocFind st.memory k with _ | rec
  · rcases assocFind st.disk k with _ | drec
    · rfl
    · by_cases h : now - drec.timestamp < drec.ttl <;> simp [h]
  · by_cases hm : now - rec.timestamp < rec.ttl
    · simp [hm]
    · rcases assocFind st.disk k with _ | drec
      · simp [hm]
      · by_cases h : now - drec.timestamp < drec.ttl <;> simp [hm, h]

/-- C6 counterexample: with a fresh durable-tier record storing null and an
empty memory tier, `getOrFetch` misses and a rejecting fetch propagates, but
the call is not state-neutral: the `get` step promoted the durable record
into the memory tier, so an entry was written for the key. -/
theorem C6_counterexample :
    (cacheGet c6State ("k".toList) 10).1 = none ∧
    getOrFetch c6State ("k".toList) (Except.error ("boom".toList)) 50 10 =
      Except.error ("boom".toList) ∧
    (cacheGet c6State ("k".toList) 10).2 ≠ c6State := by
  refine ⟨by decide, rfl, by decide⟩

/-- C6 (amended): when `getOrFetch` misses and the fetch function rejects,
the error is propagated unchanged to the caller and the durable tier is
exactly as before; the whole state is exactly as before whenever the durable
tier holds no fresh record for the key — the only exception is the promotion
of a fresh durable null record into the memory tier by the `get` step. -/
theorem C6_fetch_error {V E : Type} (st : CacheState V) (k : JStr) (e : E)
    (ttl now : Nat) (hmiss : (cacheGet st k now).1 = none) :
    getOrFetch st k (Except.error e) ttl now = Except.error e ∧
    (cacheGet st k now).2.disk = st.disk ∧
    ((∀ drec, assocFind st.disk k = some drec → drec.ttl ≤ now - drec.timestamp) →
      (cacheGet st k now).2 = st) := by
  refine ⟨?_, cacheGet_disk_unchanged st k now, ?_⟩
  · have hpair : cacheGet st k now = (none, (cacheGet st k now).2) := by
      rw [← hmiss]
    rw [getOrFetch, hpair]
  · intro hstale
    unfold cacheGet
    rcases hm : assocFind st.memory k with _ | rec
    · rcases hd : assocFind st.disk k with _ | drec
      · rfl
      · have := hstale drec hd
        have h' : ¬(now - drec.timestamp < drec.ttl) := Nat.not_lt.mpr this
        simp [h']
    · by_cases hfresh : now - rec.timestamp < rec.ttl
      · simp [hfresh]
      · rcases hd : assocFind st.disk k with _ | drec
        · simp [hfresh]
        · have := hstale drec hd
          have h' : ¬(now - drec.timestamp < drec.ttl) := Nat.not_lt.mpr this
          simp [hfresh, h']

/-- C6 witness: empty cache, rejecting fetch — error propagated, state
untouched. -/
theorem C6_fetch_error_witness :
    getOrFetch (⟨[], []⟩ : CacheState Nat) ("k".toList) (Except.error (0 : Nat)) 100 5 =
      Except.error 0 ∧
    (cacheGet (⟨[], []⟩ : CacheState Nat) ("k".toList) 5).2 = ⟨[], []⟩ := by
  have h := C6_fetch_error (⟨[], []⟩ : CacheState Nat) ("k".toList) (0 : Nat) 100 5 (by decide)
  exact ⟨h.1, h.2.2 (by intro drec hd; simp [assocFind] at hd)⟩

/-! ## Claim C10: a stored null is indistinguishable from absence -/

/-- After a miss, the value of `cacheGet` on the state produced by writing a
null record is always `none`, at every later (or earlier) time. -/
theorem cacheGet_null_record {V : Type} (st : CacheState V) (k : JStr)
    (ttl now now' : Nat) :
    (cacheGet (cacheSet st k none ttl now) k now').1 = none := by
  by_cases h : now' - now < ttl <;>
    simp [cacheGet, cacheSet, assocFind_set_self, h]

/-- C10: if the fetch resolves to null on a miss, `getOrFetch` writes a
record for the key (visible in the memory tier), yet every subsequent `get`
returns absent even while the record is fresh, and every subsequent
`getOrFetch` consults its fetch function again — its result is the new
fetch's value, not the stored one — because null is also the miss sentinel
of `get`. -/
theorem C10_null_indistinguishable {V E : Type} (st : CacheState V) (k : JStr)
    (ttl now : Nat) (hmiss : (cacheGet st k now).1 = none) :
    ∃ st2 : CacheState V,
      getOrFetch (E := E) st k (Except.ok none) ttl now = Except.ok (none, st2) ∧
      assocFind st2.memory k = some ⟨none, now, ttl⟩ ∧
      (∀ now', (cacheGet st2 k now').1 = none) ∧
      (∀ now' (w : V), ∃ st3,
        getOrFetch (E := E) st2 k (Except.ok (some w)) ttl now' = Except.ok (some w, st3)) := by
  have hpair : cacheGet st k now = (none, (cacheGet st k now).2) := by rw [← hmiss]
  refine ⟨cacheSet (cacheGet st k now).2 k none ttl now, ?_, ?_, ?_, ?_⟩
  · rw [getOrFetch, hpair]
  · exact assocFind_set_self _ _ _
  · intro now'; exact cacheGet_null_record _ _ _ _ _
  · intro now' w
    have hmiss' := cacheGet_null_record (V := V) (cacheGet st k now).2 k ttl now now'
    rcases hc : cacheGet (cacheSet (cacheGet st k now).2 k none ttl now) k now' with ⟨v, stx⟩
    rw [hc] at hmiss'
    subst hmiss'
    exact ⟨_, by rw [getOrFetch, hc]⟩

/-- C10 witness: concrete run with an empty cache. -/
theorem C10_null_witness :
    ∃ st2 : CacheState Nat,
      getOrFetch (E := Nat) (⟨[], []⟩ : CacheState Nat) ("k".toList)
          (Except.ok none) 100 0 = Except.ok (none, st2) ∧
      assocFind st2.memory ("k".toList) = some ⟨none, 0, 100⟩ ∧
      (∀ now', (cacheGet st2 ("k".toList) now').1 = none) ∧
      (∀ now' (w : Nat), ∃ st3,
        getOrFetch (E := Nat) st2 ("k".toList) (Except.ok (some w)) 100 now' =
          Except.ok (some w, st3)) :=
  C10_null_indistinguishable (⟨[], []⟩ : CacheState Nat) ("k".toList) 100 0 (by decide)

/-! ## Claim C8: the near-match test -/

theorem mismatchCount_nil (s : List Char) : mismatchCount [] s = s.length := by
  induction s with
  | nil => simp [mismatchCount]
  | cons c r ih => simp [mismatchCount, ih]; omega

theorem mismatchCount_cons_eq {c c' : Char} (r r' : List Char) (h : c = c') :
    mismatchCount (c :: r) (c' :: r') = mismatchCount r r' := by
  simp [mismatchCount, h]

theorem mismatchCount_cons_ne {c c' : Char} (r r' : List Char) (h : c ≠ c') :
    mismatchCount (c :: r) (c' :: r') = 1 + mismatchCount r r' := by
  simp [mismatchCount, h]

theorem mismatchLoop_cons_eq {c c' : Char} (r r' : List Char) (d : Nat) (h : c = c') :
    mismatchLoop (c :: r) (c' :: r') d =
      if d > 2 then false else mismatchLoop r r' d := by
  simp [mismatchLoop, h]

theorem mismatchLoop_cons_ne {c c' : Char} (r r' : List Char) (d : Nat) (h : c ≠ c') :
    mismatchLoop (c :: r) (c' :: r') d =
      if d + 1 > 2 then false else mismatchLoop r r' (d + 1) := by
  simp [mismatchLoop, h]

theorem tailMismatch_iff (s : List Char) :
    ∀ d, tailMismatch s d = true ↔ d + s.length ≤ 2 := by
  induction s with
  | nil => intro d; simp [tailMismatch]
  | cons c r ih =>
    intro d
    by_cases h : d + 1 > 2
    · simp only [tailMismatch, if_pos h, List.length_cons]
      constructor
      · intro hf; cases hf
      · intro hle; omega
    · simp only [tailMismatch, if_neg h, List.length_cons, ih (d + 1)]
      omega

theorem mismatchLoop_iff (s1 : List Char) :
    ∀ (s2 : List Char) (d : Nat),
      mismatchLoop s1 s2 d = true ↔ d + mismatchCount s1 s2 ≤ 2 := by
  induction s1 with
  | nil =>
    intro s2 d
    rw [show mismatchLoop [] s2 d = tailMismatch s2 d from rfl, tailMismatch_iff,
      mismatchCount_nil]
  | cons c r ih =>
    intro s2 d
    cases s2 with
    | nil =>
      by_cases h : d + 1 > 2
      · simp only [mismatchLoop, if_pos h, mismatchCount]
        constructor
        · intro hf; cases hf
        · intro hle; omega
      · simp only [mismatchLoop, if_neg h, mismatchCount, ih [] (d + 1)]
        omega
    | cons c' r' =>
      by_cases hc : c = c'
      · rw [mismatchLoop_cons_eq r r' d hc, mismatchCount_cons_eq r r' hc]
        by_cases h : d > 2
        · simp only [if_pos h]
          constructor
          · intro hf; cases hf
          · intro hle; omega
        · simp only [if_neg h, ih r' d]
      · rw [mismatchLoop_cons_ne r r' d hc, mismatchCount_cons_ne r r' hc]
        by_cases h : d + 1 > 2
        · simp only [if_pos h]
          constructor
          · intro hf; cases hf
          · intro hle; omega
        · simp only [if_neg h, ih r' (d + 1)]
          omega

/-- C8: `fuzzyMatch` accepts exactly when the length difference of the two
tokens is at most 2 and the count of position-wise character mismatches taken
over the length of the longer token (an out-of-range position counting as a
mismatch) is at most 2.  In particular a length difference above 2 rejects
outright. -/
theorem C8_near_match (s1 s2 : JStr) :
    fuzzyMatch s1 s2 = true ↔ (lenDiff s1 s2 ≤ 2 ∧ mismatchCount s1 s2 ≤ 2) := by
  by_cases h : lenDiff s1 s2 > 2
  · simp only [fuzzyMatch, if_pos h]
    constructor
    · intro hf; cases hf
    · intro ⟨h1, _⟩; omega
  · simp only [fuzzyMatch, if_neg h, mismatchLoop_iff]
    omega

/-! ## Claim C4: index completeness -/

theorem collapseGo_replaceFirstDot (s : JStr) :
    ∀ b, collapseGo b ((replaceFirstDot s).map jsLower) = collapseGo b (s.map jsLower) := by
  induction s with
  | nil => intro b; rfl
  | cons c rest ih =>
    intro b
    by_cases hc : c = '.'
    · subst hc
      have hsp : jsLower ' ' = ' ' := by decide
      have hdot : jsLower '.' = '.' := by decide
      have hasp : isAlnum ' ' = false := by decide
      have hadot : isAlnum '.' = false := by decide
      simp [replaceFirstDot, collapseGo, hsp, hdot, hasp, hadot]
    · simp only [replaceFirstDot, if_neg hc, List.map_cons]
      by_cases ha : isAlnum (jsLower c) = true
      · simp [collapseGo, ha, ih false]
      · simp only [collapseGo, ha, Bool.false_eq_true, if_false, if_neg]
        cases b <;> simp [ih true]

/-- The id token of the index equals the plain normalization of the id:
replacing the first `'.'` with `' '` is invisible to `normalizeName`. -/
theorem entityIdKey_eq_normalize (e : Entity) :
    entityIdKey e = normalizeName e.entity_id := by
  unfold entityIdKey normalizeName
  rw [collapseGo_replaceFirstDot]

/-- C4 counterexample: an entity whose `friendly_name` attribute is the empty
string.  The claim's lookup under the normalization of the display name
(`normalize("") = ""`) does not contain the entity: JS `||`-falsiness makes
the code index the identifier-derived fallback instead. -/
theorem C4_counterexample :
    entC4.attributes.friendly_name = some [] ∧
    entC4.entity_id ∉ lookupList (buildNameIndex [entC4]) (normalizeName []) := by
  refine ⟨rfl, ?_⟩
  decide

/-- C4 (amended): after building the index from any entity list, every entity
is reachable under both of its tokens: the normalization of its display name
when that is non-empty — otherwise of its identifier-derived fallback name
(this is `entityNameKey`) — and the normalization of its identifier. -/
theorem C4_index_complete (es : List Entity) (e : Entity) (he : e ∈ es) :
    e.entity_id ∈ lookupList (buildNameIndex es) (entityNameKey e) ∧
    e.entity_id ∈ lookupList (buildNameIndex es) (normalizeName e.entity_id) := by
  have h := buildNameIndex_complete es e he
  exact ⟨h.1, entityIdKey_eq_normalize e ▸ h.2⟩

/-- C4 witness at a concrete registry. -/
theorem C4_index_complete_witness :
    entKitchen.entity_id ∈
        lookupList (buildNameIndex [entKitchen]) (entityNameKey entKitchen) ∧
    entKitchen.entity_id ∈
        lookupList (buildNameIndex [entKitchen]) (normalizeName entKitchen.entity_id) :=
  C4_index_complete [entKitchen] entKitchen (List.mem_singleton.mpr rfl)

/-! ## Claim C9: idempotence of normalization -/

theorem isAlnum_ne_sep {c : Char} (h : isAlnum c = true) : c ≠ '_' := by
  intro he; subst he; exact absurd h (by decide)

theorem jsLower_fix {c : Char} (h : isAlnum c = true ∨ c = '_') : jsLower c = c := by
  rcases h with h | h
  · simp only [isAlnum, Bool.or_eq_true, Bool.and_eq_true, decide_eq_true_eq] at h
    have h'' : ¬((65 ≤ c.toNat && c.toNat ≤ 90) = true) := by
      simp only [Bool.and_eq_true, decide_eq_true_eq, not_and]
      omega
    simp [jsLower, h'']
  · subst h; decide

theorem collapseGo_cons_alnum {d : Char} (rest : List Char) (b : Bool)
    (h : isAlnum d = true) : collapseGo b (d :: rest) = d :: collapseGo false rest := by
  simp [collapseGo, h]

theorem collapseGo_cons_sep_true {d : Char} (rest : List Char)
    (h : ¬isAlnum d = true) : collapseGo true (d :: rest) = collapseGo true rest := by
  simp [collapseGo, h]

theorem collapseGo_cons_sep_false {d : Char} (rest : List Char)
    (h : ¬isAlnum d = true) : collapseGo false (d :: rest) = '_' :: collapseGo true rest := by
  simp [collapseGo, h]

theorem mem_collapseGo (l : List Char) :
    ∀ (b : Bool) (c : Char), c ∈ collapseGo b l → isAlnum c = true ∨ c = '_' := by
  induction l with
  | nil => intro b c h; cases h
  | cons d rest ih =>
    intro b c h
    by_cases hd : isAlnum d = true
    · simp only [collapseGo, hd, if_true] at h
      rcases List.mem_cons.mp h with h1 | h1
      · subst h1; exact Or.inl hd
      · exact ih false c h1
    · cases b with
      | true =>
        simp only [collapseGo, hd] at h
        exact ih true c h
      | false =>
        simp only [collapseGo, hd] at h
        rcases List.mem_cons.mp h with h1 | h1
        · subst h1; exact Or.inr rfl
        · exact ih true c h1

theorem collapseGo_true_headOK (l : List Char) : HeadOK (collapseGo true l) := by
  induction l with
  | nil => trivial
  | cons d rest ih =>
    by_cases hd : isAlnum d = true
    · simp only [collapseGo, hd, if_true]
      exact isAlnum_ne_sep hd
    · simp only [collapseGo, hd]
      simpa using ih

theorem chain'_collapseGo (l : List Char) :
    ∀ b, List.Chain' SepOK (collapseGo b l) := by
  induction l with
  | nil => intro b; simp [collapseGo]
  | cons d rest ih =>
    intro b
    by_cases hd : isAlnum d = true
    · simp only [collapseGo, hd, if_true]
      rw [List.chain'_cons']
      refine ⟨?_, ih false⟩
      intro y _
      exact fun hand => isAlnum_ne_sep hd hand.1
    · cases b with
      | true =>
        rw [collapseGo_cons_sep_true rest hd]
        exact ih true
      | false =>
        rw [collapseGo_cons_sep_false rest hd]
        rw [List.chain'_cons']
        refine ⟨?_, ih true⟩
        intro y hy hand
        have hh := collapseGo_true_headOK rest
        cases hcg : collapseGo true rest with
        | nil => rw [hcg] at hy; cases hy
        | cons z t =>
          rw [hcg] at hy
          simp only [List.head?_cons, Option.mem_def, Option.some.injEq] at hy
          subst hy
          rw [hcg] at hh
          exact hh hand.2

theorem chain'_dropWhile {R : Char → Char → Prop} (p : Char → Bool) (l : List Char)
    (h : List.Chain' R l) : List.Chain' R (l.dropWhile p) := by
  induction l with
  | nil => simp
  | cons c rest ih =>
    rw [List.dropWhile_cons]
    by_cases hp : p c = true
    · simp only [hp, if_true]
      exact ih h.tail
    · simp only [hp]
      exact h

theorem chain'_sepOK_reverse {l : List Char} (h : List.Chain' SepOK l) :
    List.Chain' SepOK l.reverse := by
  rw [List.chain'_reverse]
  exact h.imp (fun a b hab => fun hand => hab ⟨hand.2, hand.1⟩)

theorem headOK_dropWhileUs (l : List Char) :
    HeadOK (l.dropWhile (fun c => c == '_')) := by
  induction l with
  | nil => trivial
  | cons c rest ih =>
    rw [List.dropWhile_cons]
    by_cases hc : c = '_'
    · subst hc
      simpa using ih
    · have hb : (c == '_') = false := by simpa using hc
      simp only [hb]
      exact hc

theorem dropWhileUs_of_headOK {l : List Char} (h : HeadOK l) :
    l.dropWhile (fun c => c == '_') = l := by
  cases l with
  | nil => rfl
  | cons c rest =>
    have h' : c ≠ '_' := h
    have hb : (c == '_') = false := by simpa using h'
    rw [List.dropWhile_cons]
    simp [hb]

theorem stripSeps_eq_self {l : List Char} (h1 : HeadOK l) (h2 : HeadOK l.reverse) :
    stripSeps l = l := by
  unfold stripSeps
  rw [dropWhileUs_of_headOK h1, dropWhileUs_of_headOK h2, List.reverse_reverse]

theorem mem_dropWhile_mem {c : Char} (p : Char → Bool) (l : List Char)
    (h : c ∈ l.dropWhile p) : c ∈ l := by
  induction l with
  | nil => simp at h
  | cons d rest ih =>
    rw [List.dropWhile_cons] at h
    by_cases hp : p d = true
    · simp only [hp, if_true] at h
      exact List.mem_cons_of_mem _ (ih h)
    · simp only [hp] at h
      exact h

theorem mem_stripSeps {c : Char} {l : List Char} (h : c ∈ stripSeps l) : c ∈ l := by
  unfold stripSeps at h
  rw [List.mem_reverse] at h
  have h1 := mem_dropWhile_mem _ _ h
  rw [List.mem_reverse] at h1
  exact mem_dropWhile_mem _ _ h1

theorem dropWhile_isSfx (p : Char → Bool) (l : List Char) : l.dropWhile p <:+ l := by
  induction l with
  | nil => exact ⟨[], rfl⟩
  | cons c rest ih =>
    rw [List.dropWhile_cons]
    by_cases hp : p c = true
    · simp only [hp, if_true]
      exact ih.trans ⟨[c], rfl⟩
    · simp only [hp]
      exact List.suffix_refl _

theorem sfx_rev (l₁ l₂ : List Char) (h : l₁ <:+ l₂) : l₁.reverse <+: l₂.reverse := by
  obtain ⟨t, rfl⟩ := h
  exact ⟨t.reverse, by rw [List.reverse_append]⟩

theorem headOK_of_pfx {l₁ l₂ : List Char} (h : l₁ <+: l₂) (h2 : HeadOK l₂) :
    HeadOK l₁ := by
  cases l₁ with
  | nil => trivial
  | cons c t =>
    obtain ⟨r, hr⟩ := h
    rw [← hr] at h2
    exact h2

theorem headOK_stripSeps (l : List Char) : HeadOK (stripSeps l) := by
  unfold stripSeps
  have hsfx := dropWhile_isSfx (fun c => c == '_') (l.dropWhile (fun c => c == '_')).reverse
  have hpfx := sfx_rev _ _ hsfx
  rw [List.reverse_reverse] at hpfx
  exact headOK_of_pfx hpfx (headOK_dropWhileUs l)

theorem headOK_rev_stripSeps (l : List Char) : HeadOK (stripSeps l).reverse := by
  unfold stripSeps
  rw [List.reverse_reverse]
  exact headOK_dropWhileUs _

theorem chain'_stripSeps {l : List Char} (h : List.Chain' SepOK l) :
    List.Chain' SepOK (stripSeps l) := by
  unfold stripSeps
  exact chain'_sepOK_reverse
    (chain'_dropWhile _ _ (chain'_sepOK_reverse (chain'_dropWhile _ _ h)))

theorem collapseGo_fix (l : List Char) :
    ∀ (_ : AllANS l) (_ : List.Chain' SepOK l),
      collapseGo false l = l ∧ (HeadOK l → collapseGo true l = l) := by
  induction l with
  | nil => intro _ _; exact ⟨rfl, fun _ => rfl⟩
  | cons c rest ih =>
    intro hA hC
    have hAr : AllANS rest := fun x hx => hA x (List.mem_cons_of_mem _ hx)
    have hCr : List.Chain' SepOK rest := hC.tail
    rcases hA c (List.mem_cons_self _ _) with hc | hc
    · have hfix := (ih hAr hCr).1
      constructor
      · simp only [collapseGo, hc, if_true, hfix]
      · intro _
        simp only [collapseGo, hc, if_true, hfix]
    · subst hc
      have hhr : HeadOK rest := by
        cases rest with
        | nil => trivial
        | cons d t =>
          have hsep := (List.chain'_cons'.mp hC).1 d (by simp)
          exact fun hd => hsep ⟨rfl, hd⟩
      have h2 := (ih hAr hCr).2 hhr
      have hna : isAlnum '_' = false := by decide
      constructor
      · simp only [collapseGo, hna, Bool.false_eq_true, if_false, h2]
      · intro habs
        exact absurd rfl habs

theorem map_jsLower_fix {l : List Char} (h : AllANS l) : l.map jsLower = l := by
  induction l with
  | nil => rfl
  | cons c rest ih =>
    rw [List.map_cons, jsLower_fix (h c (List.mem_cons_self _ _)),
      ih (fun x hx => h x (List.mem_cons_of_mem _ hx))]

theorem allANS_normalizeName (s : JStr) : AllANS (normalizeName s) := by
  intro c hc
  exact mem_collapseGo _ false c (mem_stripSeps hc)

/-- C9: `normalizeName` is idempotent. -/
theorem C9_normalize_idempotent (s : JStr) :
    normalizeName (normalizeName s) = normalizeName s := by
  have hA := allANS_normalizeName s
  have hC : List.Chain' SepOK (normalizeName s) :=
    chain'_stripSeps (chain'_collapseGo _ false)
  have h1 : (normalizeName s).map jsLower = normalizeName s := map_jsLower_fix hA
  have h2 : collapseGo false (normalizeName s) = normalizeName s := (collapseGo_fix _ hA hC).1
  have hH : HeadOK (normalizeName s) := headOK_stripSeps _
  have hHr : HeadOK (normalizeName s).reverse := headOK_rev_stripSeps _
  calc normalizeName (normalizeName s)
      = stripSeps (collapseGo false ((normalizeName s).map jsLower)) := rfl
    _ = stripSeps (collapseGo false (normalizeName s)) := by rw [h1]
    _ = stripSeps (normalizeName s) := by rw [h2]
    _ = normalizeName s := stripSeps_eq_self hH hHr

/-! ## Claim C1: the disambiguation area filter -/

/-- C1 counterexample: two candidates named "fan"; one carries an
`area_id` attribute for the office, the other's office placement is recorded
only on its owning device.  The spec-modelled resolved-area predicate accepts
the device-only candidate, yet the resolver's area filter drops it: the code
consults only the entity attribute. -/
theorem C1_counterexample :
    specResolvedAreaMatch regC1 ("office".toList) ("light.fan_b".toList) = true ∧
    areaMatches regC1 ("office".toList) ("light.fan_b".toList) = false ∧
    areaStep regC1 (some ("office".toList)) candsC1 = [("switch.office_fan".toList)] ∧
    ("light.fan_b".toList) ∉ areaStep regC1 (some ("office".toList)) candsC1 := by
  refine ⟨by decide, by decide, by decide, by decide⟩

/-- C1 (amended): when an area hint is supplied and more than one candidate
remains, the resolver keeps exactly those candidates whose area — resolved
from the entity's own `area_id` attribute only; the owning device is never
consulted — normalizes equal to the hint, provided at least one candidate so
matches. -/
theorem C1_area_filter (r : Registry) (hint : JStr) (cands : List JStr)
    (hh : hint ≠ []) (hlen : 1 < cands.length)
    (hex : ∃ c ∈ cands, areaMatches r hint c = true) :
    areaStep r (some hint) cands = cands.filter (areaMatches r hint) := by
  have ht : jsTruthy (some hint) = true := by
    simp [jsTruthy, List.isEmpty_iff, hh]
  have hne : ¬(cands.filter (areaMatches r hint)).isEmpty = true := by
    obtain ⟨c, hc, hm⟩ := hex
    rw [List.isEmpty_iff]
    intro hnil
    have : c ∈ cands.filter (areaMatches r hint) := List.mem_filter.mpr ⟨hc, hm⟩
    rw [hnil] at this
    cases this
  have hcond : (jsTruthy (some hint) && decide (1 < cands.length)) = true := by
    rw [ht]
    simp [hlen]
  simp only [areaStep, hcond, if_true, Option.getD_some]
  rw [if_neg hne]

/-- C1 witness: the concrete office registry, where the attribute-carrying
fan is kept and the device-only fan is dropped. -/
theorem C1_area_filter_witness :
    areaStep regC1 (some ("office".toList)) candsC1 =
      candsC1.filter (areaMatches regC1 ("office".toList)) :=
  C1_area_filter regC1 ("office".toList) candsC1 (by decide) (by decide)
    ⟨("switch.office_fan".toList), by decide, by decide⟩

/-! ## Claim C3: exact match versus prefix match in the fuzzy ranking -/

/-- C3 counterexample: for the query "l", entity `entC3A` is an exact match
(normalized name = query) and entity `entC3B` only prefix-matches, yet the
ranking places `entC3B` strictly above `entC3A`: its twenty "l" name words
collect 2000 token points, dwarfing the 1000-point exact bonus. -/
theorem C3_counterexample :
    normalizeName (jsOrStr entC3A.attributes.friendly_name entC3A.entity_id) =
      normalizeName ("l".toList) ∧
    (normalizeName ("l".toList)).isPrefixOf
      (normalizeName (jsOrStr entC3B.attributes.friendly_name entC3B.entity_id)) = true ∧
    normalizeName (jsOrStr entC3B.attributes.friendly_name entC3B.entity_id) ≠
      normalizeName ("l".toList) ∧
    normalizeName entC3B.entity_id ≠ normalizeName ("l".toList) ∧
    searchRanked regC3 ("l".toList) none none 10 =
      [(entC3B.entity_id, 2750), (entC3A.entity_id, 2170)] := by
  refine ⟨by decide, by decide, by decide, by decide, by decide⟩

theorem isPrefixOf_self (l : JStr) : l.isPrefixOf l = true := by
  induction l with
  | nil => rfl
  | cons c rest ih => simp [List.isPrefixOf, ih]

theorem isSubstring_self (l : JStr) : isSubstring l l = true := by
  cases l with
  | nil => rfl
  | cons c rest => simp [isSubstring, isPrefixOf_self]

theorem coreScore_exact_ge {qN nm idN : JStr} (h : nm = qN ∨ idN = qN) :
    1700 ≤ coreScore qN nm idN := by
  unfold coreScore
  rcases h with h | h
  · subst h
    rw [if_pos (Or.inl rfl),
      if_pos (show (List.isPrefixOf nm nm || List.isPrefixOf nm idN) = true by
        simp [isPrefixOf_self]),
      if_pos (isSubstring_self nm)]
    split <;> omega
  · subst h
    rw [if_pos (Or.inr rfl),
      if_pos (show (List.isPrefixOf idN nm || List.isPrefixOf idN idN) = true by
        simp [isPrefixOf_self]),
      if_pos (isSubstring_self idN)]
    split <;> omega

theorem coreScore_nonexact_le {qN nm idN : JStr} (h : ¬(nm = qN ∨ idN = qN)) :
    coreScore qN nm idN ≤ 950 := by
  unfold coreScore
  rw [if_neg h]
  split <;> split <;> split <;> omega

/-- C3 (amended): an exact-match candidate receives the 1000-point exact
bonus a prefix-only candidate cannot, so whenever the two candidates' other
contributions (token scores, hint bonuses, availability penalty) are equal,
the exact match scores strictly higher — and therefore sorts strictly above
in the descending ranking. -/
theorem C3_exact_outranks (r : Registry) (qN : JStr) (qWords : List JStr)
    (dh ah : Option JStr) (idA idB : JStr) (eA eB : Entity)
    (hA : normalizeName (jsOrStr eA.attributes.friendly_name idA) = qN ∨
          normalizeName idA = qN)
    (hB : ¬(normalizeName (jsOrStr eB.attributes.friendly_name idB) = qN ∨
            normalizeName idB = qN))
    (hres : tokenScore qWords
        (splitWords '_' (normalizeName (jsOrStr eA.attributes.friendly_name idA)))
        (splitWords '_' (normalizeName idA)) +
        hintScore r dh ah idA eA + statePenalty eA =
      tokenScore qWords
        (splitWords '_' (normalizeName (jsOrStr eB.attributes.friendly_name idB)))
        (splitWords '_' (normalizeName idB)) +
        hintScore r dh ah idB eB + statePenalty eB) :
    scoreEntity r qN qWords dh ah idB eB < scoreEntity r qN qWords dh ah idA eA := by
  have hcoreA := coreScore_exact_ge hA
  have hcoreB := coreScore_nonexact_le hB
  simp only [scoreEntity]
  omega

/-- C3 witness: query "ab"; `entC3WA` is exact, `entC3WB` prefix-only, both
with residual contribution 180, and the exact match scores higher. -/
theorem C3_exact_outranks_witness :
    scoreEntity regC3 ("ab".toList) [("ab".toList)] none none
        entC3WB.entity_id entC3WB <
      scoreEntity regC3 ("ab".toList) [("ab".toList)] none none
        entC3WA.entity_id entC3WA :=
  C3_exact_outranks regC3 ("ab".toList) [("ab".toList)] none none
    entC3WA.entity_id entC3WB.entity_id entC3WA entC3WB
    (by decide) (by decide) (by decide)

/-! ## Claim C7: atomic rebuild under cooperative scheduling -/

/-- An entity present in a list is reachable in the index built from that
list under the normalization of its identifier. -/
theorem lookup_id_nonempty {es : List Entity} {i : JStr} (h : presentId es i) :
    lookupList (buildNameIndex es) (normalizeName i) ≠ [] := by
  obtain ⟨e, he, hei⟩ := h
  have hm := (buildNameIndex_complete es e he).2
  rw [entityIdKey_eq_normalize, hei] at hm
  exact List.ne_nil_of_mem hm

theorem runSched_lookup_nonempty (events : List REvent) :
    ∀ (idx : NameIndex) (i : JStr),
      lookupList idx (normalizeName i) ≠ [] →
      (∀ newE, REvent.fetchOk newE ∈ events → presentId newE i) →
      ∀ res, (normalizeName i, res) ∈ (runSched idx events).2 → res ≠ [] := by
  induction events with
  | nil =>
    intro idx i _ _ res hres
    simp [runSched] at hres
  | cons ev rest ih =>
    intro idx i hinv hfetch res hres
    cases ev with
    | doLookup k =>
      simp only [runSched, List.mem_cons] at hres
      rcases hres with hres | hres
      · have hk : k = normalizeName i := (Prod.mk.injEq _ _ _ _).mp hres |>.1.symm
        have hr : res = lookupList idx k := (Prod.mk.injEq _ _ _ _).mp hres |>.2
        rw [hr, hk]
        exact hinv
      · exact ih idx i hinv (fun newE hm => hfetch newE (List.mem_cons_of_mem _ hm)) res hres
    | fetchOk newE =>
      simp only [runSched] at hres
      have hpres : presentId newE i := hfetch newE (List.mem_cons_self _ _)
      exact ih (buildNameIndex newE) i (lookup_id_nonempty hpres)
        (fun nE hm => hfetch nE (List.mem_cons_of_mem _ hm)) res hres
    | fetchFail =>
      simp only [runSched] at hres
      exact ih idx i hinv (fun nE hm => hfetch nE (List.mem_cons_of_mem _ hm)) res hres

/-- C7: in the cooperative-scheduling model — lookups interleave only between
whole events, because `setEntities`/the rebuild loop runs synchronously with
no internal suspension — (1) for every schedule interleaving one or more
rebuilds with any number of lookups, a lookup of the id token of an entity
present in the pre-rebuild registry and in every fetched registry never
observes zero candidates; and (2) a failed fetch leaves the index of the
whole run exactly as if the event had not occurred (the previous index stays
fully intact). -/
theorem C7_atomic_rebuild :
    (∀ (oldE : List Entity) (events : List REvent) (i : JStr),
        presentId oldE i →
        (∀ newE, REvent.fetchOk newE ∈ events → presentId newE i) →
        ∀ res, (normalizeName i, res) ∈ (runSched (buildNameIndex oldE) events).2 →
          res ≠ []) ∧
    (∀ (idx : NameIndex) (rest : List REvent),
        runSched idx (REvent.fetchFail :: rest) = runSched idx rest) := by
  constructor
  · intro oldE events i hold hfetch res hres
    exact runSched_lookup_nonempty events (buildNameIndex oldE) i
      (lookup_id_nonempty hold) hfetch res hres
  · intro idx rest
    rfl

/-- C7 witness: a lookup of the kitchen light's id token against its own
one-entity registry observes a non-empty candidate set. -/
theorem C7_atomic_rebuild_witness :
    lookupList (buildNameIndex [entKitchen])
      (normalizeName ("light.kitchen_light".toList)) ≠ [] :=
  C7_atomic_rebuild.1 [entKitchen]
    [REvent.doLookup (normalizeName ("light.kitchen_light".toList))]
    ("light.kitchen_light".toList)
    ⟨entKitchen, List.mem_singleton.mpr rfl, rfl⟩
    (by intro newE hmem; simp at hmem)
    (lookupList (buildNameIndex [entKitchen])
      (normalizeName ("light.kitchen_light".toList)))
    (by simp [runSched])

end SynapseHA
